import Mathlib

/-!
Verification of the DevAegis report-normalization and quality-gate layer.

The definitions below are a shallow embedding of the Python sources:
  * `SnykAnalyser._process_snyk_results`  (src/dev_aegis/analyser/SnykAnalyser.py)
  * `SonarAnalyser._parse_jacoco_report` and `_process_analysis_results`
    (src/dev_aegis/analyser/SonarAnalyser.py)
  * `MavenDependencyAnalyzer._parse_project_tree_output`
    (src/dev_aegis/gitter/DependencyAnalyser.py)
  * `GitChecker` (src/dev_aegis/gitter/GitChecker.py)
  * `MainPipeline.main` (MainPipeline.py)

Python floats are modelled as rationals (ℚ); all comparisons in the sources
stay within exactly representable decimal values, so no rounding behaviour is
lost for the properties proved here.  JSON inputs are modelled at the level of
well-typed scan documents ("valid scan JSON input" in the specification):
every optional field is an `Option` of the type the code reads from it.
-/

/-! ## Snyk scan data model

A vulnerability entry of the scan JSON.  Each field is `none` when the source
key is absent.  `fixedIn` is a JSON array of version strings when present. -/
structure VulnJson where
  packageName : Option String
  severity : Option String
  version : Option String
  fixedIn : Option (List String)
  url : Option String
  exploit : Option String
deriving DecidableEq, Repr

/-- One scanned manifest object of the Snyk JSON output:
`ok` (absent defaults to `True` in the code) and an optional
`vulnerabilities` array. -/
structure ProjectJson where
  ok : Option Bool
  vulnerabilities : Option (List VulnJson)
deriving DecidableEq, Repr

/-- The top-level Snyk JSON document: a single object or a list of objects
(`snyk_data if isinstance(snyk_data, list) else [snyk_data]`). -/
inductive SnykData where
  | single (p : ProjectJson)
  | list (ps : List ProjectJson)
deriving DecidableEq, Repr

/-- `snyk_results = snyk_data if isinstance(snyk_data, list) else [snyk_data]`. -/
def parseProjects : SnykData → List ProjectJson
  | .single p => [p]
  | .list ps => ps

/-- A parsed vulnerability record, the per-`vuln` locals of
`_process_snyk_results` (lines 101–106): `package`, `severity`, `version`,
`fixed_in`, `url`, and `exploit_maturity` (kept here alongside the report
fields; the code uses it only for the gate check). -/
structure VulnRecord where
  package : String
  severity : String
  version : String
  fixed_in : String
  url : String
  exploit_maturity : String
deriving DecidableEq, Repr

/-- `fixed_in = ', '.join(vuln.get('fixedIn', [])) if vuln.get('fixedIn') else 'NA'`:
Python truthiness makes an absent or empty `fixedIn` yield the `"NA"` sentinel. -/
def fixedInOf (v : VulnJson) : String :=
  match v.fixedIn with
  | some l => if l.isEmpty then "NA" else String.intercalate ", " l
  | none => "NA"

/-- The per-vulnerability field extraction of `_process_snyk_results`
(lines 101–106), with the source's defaults for absent keys. -/
def parseVuln (v : VulnJson) : VulnRecord :=
  { package := v.packageName.getD "N/A"
    severity := v.severity.getD "N/A"
    version := v.version.getD "N/A"
    fixed_in := fixedInOf v
    url := v.url.getD "#"
    exploit_maturity := v.exploit.getD "Not Available" }

/-- `project.get('ok', True) is False and 'vulnerabilities' in project`. -/
def projectSelected (p : ProjectJson) : Bool :=
  p.ok.getD true == false && p.vulnerabilities.isSome

/-- The records contributed by one manifest object: its `vulnerabilities`
entries in order when the object is selected, nothing otherwise. -/
def projectVulns (p : ProjectJson) : List VulnRecord :=
  if projectSelected p then (p.vulnerabilities.getD []).map parseVuln else []

/-- `vulnerabilities_to_report`: all records across the document in
encounter order. -/
def parsedVulns (d : SnykData) : List VulnRecord :=
  (parseProjects d).flatMap projectVulns

/-- Quality-gate condition 1 of `_process_snyk_results` (line 117):
`severity == 'critical'`. -/
def vulnCritical (r : VulnRecord) : Bool :=
  r.severity == "critical"

/-- Quality-gate condition 2 (line 122):
`severity == 'high' and fixed_in != 'NA' and exploit_maturity == 'Mature'`. -/
def vulnHighFixableMature (r : VulnRecord) : Bool :=
  r.severity == "high" && r.fixed_in != "NA" && r.exploit_maturity == "Mature"

/-- Reason string appended for condition 1 (line 119). -/
def criticalReason (package : String) : String :=
  "- CRITICAL vulnerability found in \x27" ++ package ++ "\x27."

/-- Reason string appended for condition 2 (line 124). -/
def highReason (package : String) : String :=
  "- HIGH vulnerability with a mature exploit and available fix found in \x27"
    ++ package ++ "\x27."

/-- One iteration of the gate accumulation: the two independent `if`
statements at lines 117–124 acting on `(quality_gate_failed, failure_reasons)`. -/
def stepGate (acc : Bool × List String) (r : VulnRecord) : Bool × List String :=
  let a1 := if vulnCritical r then (true, acc.2 ++ [criticalReason r.package]) else acc
  if vulnHighFixableMature r then (true, a1.2 ++ [highReason r.package]) else a1

/-- The gate accumulation over all parsed records:
`quality_gate_failed` and `failure_reasons` after the loop. -/
def processGate (rs : List VulnRecord) : Bool × List String :=
  rs.foldl stepGate (false, [])

/-- `quality_gate_failed` for a list of parsed records. -/
def snykGateFailed (rs : List VulnRecord) : Bool :=
  (processGate rs).1

/-- `set(failure_reasons)` (line 132): the emitted reason lines form a set,
printed sorted; duplicates are collapsed. -/
def emittedReasonSet (rs : List VulnRecord) : Finset String :=
  (processGate rs).2.toFinset

/-- The reasons contributed by a single record: the two appends of
lines 119 and 124, in order. -/
def reasonsOf (r : VulnRecord) : List String :=
  (if vulnCritical r then [criticalReason r.package] else [])
    ++ (if vulnHighFixableMature r then [highReason r.package] else [])

/-- A record fails the gate when either condition holds. -/
def vulnFails (r : VulnRecord) : Bool :=
  vulnCritical r || vulnHighFixableMature r

/-! ## Sonar / JaCoCo data model -/

/-- One `counter` child element of the JaCoCo XML root, with its `type`
attribute and integer `missed`/`covered` attributes. -/
structure JacocoCounter where
  ctype : String
  missed : Int
  covered : Int
deriving DecidableEq, Repr

/-- The observable states of the JaCoCo report file that
`_parse_jacoco_report` distinguishes: missing file (`FileNotFoundError`),
any other parse failure (`except Exception`), or a parsed document with its
root-level counter elements. -/
inductive JacocoFile where
  | missing
  | unparsable
  | parsed (counters : List JacocoCounter)
deriving DecidableEq, Repr

/-- `covered / total * 100 if total > 0 else 0.0` for one counter
(lines 167–170 of SonarAnalyser.py). -/
def coverageOfCounter (c : JacocoCounter) : ℚ :=
  let total := c.missed + c.covered
  if total > 0 then ((c.covered : ℚ) / (total : ℚ)) * 100 else 0

/-- `_parse_jacoco_report`: find the counter with `type == 'INSTRUCTION'`;
return its coverage, or `0.0` when the counter is absent, the file is
missing, or parsing failed. -/
def parseJacocoReport : JacocoFile → ℚ
  | .missing => 0
  | .unparsable => 0
  | .parsed cs =>
    match cs.find? (fun c => c.ctype == "INSTRUCTION") with
    | some c => coverageOfCounter c
    | none => 0

/-- `failed = (blocker_bugs > 0) or (critical_bugs > 0) or (coverage < 80.0)`
(line 196 of SonarAnalyser.py). -/
def sonarGateFailed (blocker_bugs critical_bugs : Int) (coverage : ℚ) : Bool :=
  blocker_bugs > 0 || critical_bugs > 0 || coverage < 80

/-! ## Main pipeline (MainPipeline.py and the halt behaviour of
`_process_snyk_results`) -/

/-- Outcome of `_process_snyk_results`: the gate verdict, the accumulated
reasons, and whether the call terminated the process.  The `sys.exit(1)` in
the failure branch is commented out in the source (line 137), so the call
never halts: control always returns to the caller. -/
structure SnykProcessOutcome where
  gateFailed : Bool
  reasons : List String
  halted : Bool
deriving DecidableEq, Repr

/-- `_process_snyk_results` on a scan document. -/
def processSnykResults (d : SnykData) : SnykProcessOutcome :=
  let rs := parsedVulns d
  let g := processGate rs
  { gateFailed := g.1, reasons := g.2, halted := false }

/-- The pipeline stages of `MainPipeline.main`. -/
inductive Stage where
  | build
  | securityScan
  | dependencyAudit
  | remediation
  | vcsSync
deriving DecidableEq, Repr

/-- The stages `MainPipeline.main` executes after the security scan
returns: when the scan call halted the process nothing more runs, otherwise
the dependency audit, the remediation, and the VCS sync all run. -/
def stagesAfterScan (d : SnykData) : List Stage :=
  if (processSnykResults d).halted then []
  else [Stage.dependencyAudit, Stage.remediation, Stage.vcsSync]

/-! ## Dependency-tree text parser
(`MavenDependencyAnalyzer._parse_project_tree_output`) -/

/-! Character-list string primitives.  The Lean `String` API walks byte
positions, which the kernel cannot evaluate on literals; the equivalents
below recurse over `String.data` so every concrete instance reduces.  Each
mirrors the Python string operation named in its comment. -/

/-- `pat` occurs as a contiguous sublist of `l`. -/
def subOccurs (pat : List Char) : List Char → Bool
  | [] => pat.isEmpty
  | c :: t => pat.isPrefixOf (c :: t) || subOccurs pat t

/-- Python `pat in s` substring test. -/
def strContains (s pat : String) : Bool :=
  subOccurs pat.data s.data

/-- Python `s.startswith(pre)`. -/
def strStartsWith (s pre : String) : Bool :=
  pre.data.isPrefixOf s.data

/-- Python `s[n:]` (character slice). -/
def strDrop (s : String) (n : Nat) : String :=
  String.mk (s.data.drop n)

/-- Python `s.lower()` (ASCII case folding). -/
def strLower (s : String) : String :=
  String.mk (s.data.map Char.toLower)

/-- Python `s.lstrip()`. -/
def strTrimLeft (s : String) : String :=
  String.mk (s.data.dropWhile Char.isWhitespace)

/-- Python `s.strip()`. -/
def strTrim (s : String) : String :=
  String.mk
    (((s.data.dropWhile Char.isWhitespace).reverse.dropWhile
      Char.isWhitespace).reverse)

/-- Splitting on a single separator character, accumulator reversed per
segment. -/
def splitCharGo (sep : Char) : List Char → List Char → List (List Char)
  | [], cur => [cur.reverse]
  | c :: t, cur =>
    if c == sep then cur.reverse :: splitCharGo sep t []
    else splitCharGo sep t (c :: cur)

/-- The part of `l` before the first occurrence of `sep`, and the part after
it; `none` when `sep` does not occur. -/
def splitFirstList (sep : List Char) : List Char → Option (List Char × List Char)
  | [] => none
  | c :: t =>
    if sep.isPrefixOf (c :: t) then some ([], (c :: t).drop sep.length)
    else
      match splitFirstList sep t with
      | some (pre, post) => some (c :: pre, post)
      | none => none

/-- `start_marker = "[INFO] --- dependency"`. -/
def startMarker : String := "[INFO] --- dependency"

/-- `end_marker`: `[INFO] ` followed by the 72-dash rule. -/
def endMarker : String :=
  "[INFO] ------------------------------------------------------------------------"

/-- The sentinel returned when nothing was captured (line 92). -/
def couldNotParseSentinel : String :=
  "Could not parse dependency tree. Is \x27pom.xml\x27 valid?"

/-- The scanning loop of `_parse_project_tree_output` (lines 70–88):
arguments are the remaining lines, the `capturing` flag and the accumulated
`tree_lines`; returning the accumulator models `break`. -/
def parseTreeLoop : List String → Bool → List String → List String
  | [], _, acc => acc
  | line :: rest, capturing, acc =>
    if strContains line startMarker then parseTreeLoop rest true acc
    else if capturing then
      if strStartsWith line endMarker then acc
      else if strStartsWith line "[INFO] " then
        parseTreeLoop rest capturing (acc ++ [strDrop line 7])
      else if strStartsWith line "[WARNING]" then
        parseTreeLoop rest capturing (acc ++ [line])
      else if !(strStartsWith line "[INFO] BUILD SUCCESS") then acc
      else parseTreeLoop rest capturing acc
    else parseTreeLoop rest capturing acc

/-- `_parse_project_tree_output` on an already-split line list: the sentinel
when nothing was captured, otherwise the captured lines newline-joined. -/
def parseTreeLines (lines : List String) : String :=
  let tree_lines := parseTreeLoop lines false []
  if tree_lines.isEmpty then couldNotParseSentinel
  else String.intercalate "\n" tree_lines

/-- Python `str.splitlines` restricted to `\n` terminators: splits on
newlines and drops a trailing empty fragment. -/
def splitlines (s : String) : List String :=
  if s.data.isEmpty then []
  else
    let segs := splitCharGo (Char.ofNat 10) s.data []
    let segs' := if s.data.getLast? == some (Char.ofNat 10) then segs.dropLast else segs
    segs'.map String.mk

/-- `_parse_project_tree_output` on the raw console text. -/
def parseProjectTreeOutput (output : String) : String :=
  parseTreeLines (splitlines output)

/-! ## VCS-sync state machine (`GitChecker`)

The external world is an environment: a deterministic git oracle (outcome of
a git command, given the commands already issued), the operator's answers
indexed by prompt number, the current branch (read by the constructor), and
the ticket id.  `GitSt` threads the trace of issued git commands and the
prompt counter; an `Except.error` carries the state at a `sys.exit(1)`. -/

/-- Exit code and captured stdout of one git invocation. -/
structure GitOutcome where
  exitCode : Int
  stdout : String
deriving DecidableEq, Repr

/-- The environment of one `GitChecker` run. -/
structure GitEnv where
  git : List (List String) → List String → GitOutcome
  inputs : Nat → String
  currentBranch : String
  jiraTicket : String

/-- Machine state: git commands issued so far, prompts consumed so far. -/
structure GitSt where
  trace : List (List String)
  inputIdx : Nat
deriving DecidableEq, Repr

/-- Issue one git command: record it and ask the oracle. -/
def issueGit (env : GitEnv) (st : GitSt) (cmd : List String) :
    GitOutcome × GitSt :=
  (env.git st.trace cmd, { st with trace := st.trace ++ [cmd] })

/-- `_run_git_command` (lines 36–47): with `check` set, a non-zero exit
raises `CalledProcessError` and the handler calls `sys.exit(1)` (modelled by
`Except.error`); otherwise the stdout is returned. -/
def runGitCommand (env : GitEnv) (st : GitSt) (cmd : List String)
    (check : Bool) : Except GitSt (String × GitSt) :=
  let p := issueGit env st cmd
  if check && p.1.exitCode != 0 then .error p.2 else .ok (p.1.stdout, p.2)

/-- Consume one operator answer. -/
def readInput (env : GitEnv) (st : GitSt) : String × GitSt :=
  (env.inputs st.inputIdx, { st with inputIdx := st.inputIdx + 1 })

/-- `protected_branches` (line 51). -/
def protectedBranches : List String := ["main", "master", "dev", "develop"]

/-- `check_current_branch` (lines 49–59): on a protected branch ask for
confirmation; proceed only when the lowered answer is `y`. -/
def checkCurrentBranch (env : GitEnv) (st : GitSt) : Bool × GitSt :=
  if protectedBranches.contains env.currentBranch then
    let p := readInput env st
    (strLower p.1 == "y", p.2)
  else (true, st)

/-- Python `s.split(' ', 1)`: split at the first space only. -/
def splitOnceOnSpace (s : String) : List String :=
  match splitFirstList [Char.ofNat 32] s.data with
  | none => [s]
  | some (pre, post) => [String.mk pre, String.mk post]

/-- The separator of a porcelain rename entry, `old -> new`. -/
def arrowSep : List Char := " -> ".data

/-- Rename entries `old -> new` are normalised to the new path
(`file_path.split(' -> ')[1]`, line 79). -/
def normalizeRename (fp : String) : String :=
  match splitFirstList arrowSep fp.data with
  | none => fp
  | some (_, post) =>
    match splitFirstList arrowSep post with
    | none => String.mk post
    | some (seg, _) => String.mk seg

/-- One line of `git status --porcelain` output → the file path it names
(lines 74–81): lines without a space are skipped. -/
def parseStatusLine (line : String) : Option String :=
  match splitOnceOnSpace (strTrimLeft line) with
  | [_, fp] => some (normalizeRename fp)
  | _ => none

/-- `parsed_files` (lines 70–81). -/
def parseStatusFiles (status_output : String) : List String :=
  (splitlines (strTrim status_output)).filterMap parseStatusLine

/-- The interactive staging loop (lines 87–104): per-file answers `y`
(stage), `a` (stage and stage the rest), `q` (stop early), anything else
skip. -/
def stageLoop (env : GitEnv) : List String → Bool → GitSt → Except GitSt GitSt
  | [], _, st => .ok st
  | f :: rest, add_all, st =>
    if add_all then
      match runGitCommand env st ["add", f] true with
      | .error st' => .error st'
      | .ok (_, st') => stageLoop env rest true st'
    else
      let p := readInput env st
      let r := strLower p.1
      if r == "y" then
        match runGitCommand env p.2 ["add", f] true with
        | .error st' => .error st'
        | .ok (_, st') => stageLoop env rest false st'
      else if r == "a" then
        match runGitCommand env p.2 ["add", f] true with
        | .error st' => .error st'
        | .ok (_, st') => stageLoop env rest true st'
      else if r == "q" then .ok p.2
      else stageLoop env rest false p.2

/-- `stage_files` (lines 61–104). -/
def stageFiles (env : GitEnv) (st : GitSt) : Except GitSt GitSt :=
  match runGitCommand env st ["status", "--porcelain"] true with
  | .error st' => .error st'
  | .ok (status_output, st1) =>
    if status_output == "" then .ok st1
    else
      let parsed_files := parseStatusFiles status_output
      if parsed_files.isEmpty then .ok st1
      else stageLoop env parsed_files false st1

/-- `create_commit` (lines 106–117): the staged-changes probe
`git diff --cached --quiet` is a raw `subprocess.run` whose non-zero exit is
data (changes are staged), never fatal; the commit itself goes through the
checked runner. -/
def createCommit (env : GitEnv) (st : GitSt) : Except GitSt GitSt :=
  let p := issueGit env st ["diff", "--cached", "--quiet"]
  if p.1.exitCode == 0 then .ok p.2
  else
    let q := readInput env p.2
    match runGitCommand env q.2
        ["commit", "-m", env.jiraTicket ++ ": " ++ q.1] true with
    | .error st' => .error st'
    | .ok (_, st') => .ok st'

/-- `branches_to_check` (line 124). -/
def branchesToCheck : List String := ["main", "master", "develop", "dev"]

/-- The per-branch drift loop of `check_remote_changes` (lines 128–137):
the `log` command is issued with `check=False`, so its failure is never
fatal; non-empty log output is appended to the report. -/
def driftLoop (env : GitEnv) (remotes : String) :
    List String → String → GitSt → Except GitSt (String × GitSt)
  | [], report, st => .ok (report, st)
  | b :: rest, report, st =>
    if strContains remotes ("origin/" ++ b) then
      match runGitCommand env st ["log", "HEAD..origin/" ++ b, "--oneline"]
          false with
      | .error st' => .error st'
      | .ok (log_output, st') =>
        let report' :=
          if strTrim log_output == "" then report
          else report ++ "## New Commits on \x27origin/" ++ b ++ "\x27\n\n"
            ++ "```\n" ++ strTrim log_output ++ "\n```\n\n"
        driftLoop env remotes rest report' st'
    else driftLoop env remotes rest report st

/-- `check_remote_changes` (lines 119–145); the returned string is the
drift report content (written to disk when non-empty). -/
def checkRemoteChanges (env : GitEnv) (st : GitSt) :
    Except GitSt (String × GitSt) :=
  match runGitCommand env st ["fetch", "origin"] true with
  | .error st' => .error st'
  | .ok (_, st1) =>
    match runGitCommand env st1 ["branch", "-r"] true with
    | .error st' => .error st'
    | .ok (remotes, st2) => driftLoop env remotes branchesToCheck "" st2

/-- Terminal outcomes of `run_full_process`: a fatal `sys.exit(1)`, a
user-declined early return, or normal completion. -/
inductive RunResult where
  | fatal (st : GitSt)
  | declined (st : GitSt)
  | completed (st : GitSt)
deriving DecidableEq, Repr

/-- `run_full_process` (lines 153–160). -/
def runFullProcess (env : GitEnv) : RunResult :=
  let p := checkCurrentBranch env ⟨[], 0⟩
  if !p.1 then .declined p.2
  else
    match stageFiles env p.2 with
    | .error st' => .fatal st'
    | .ok st2 =>
      match createCommit env st2 with
      | .error st' => .fatal st'
      | .ok st3 =>
        match checkRemoteChanges env st3 with
        | .error st' => .fatal st'
        | .ok (_, st4) =>
          match runGitCommand env st4
              ["push", "-u", "origin", env.currentBranch] true with
          | .error st' => .fatal st'
          | .ok (_, st5) => .completed st5

/-- The only git invocations the machine issues without `check`: the
staged-changes probe and the per-branch drift-check log. -/
def isUncheckedCmd (cmd : List String) : Bool :=
  cmd == ["diff", "--cached", "--quiet"] || cmd.head? == some "log"

/-- Every checked command of a trace succeeded, each judged against the
commands issued before it (`base` plus the trace prefix). -/
def checkedOkFrom (env : GitEnv) : List (List String) → List (List String) → Bool
  | _, [] => true
  | base, c :: rest =>
    (isUncheckedCmd c || (env.git base c).exitCode == 0)
      && checkedOkFrom env (base ++ [c]) rest

/-- Between two machine states, only commands whose checked invocations all
succeeded were appended to the trace. -/
def OkExtension (env : GitEnv) (st st' : GitSt) : Prop :=
  ∃ d, st'.trace = st.trace ++ d ∧ checkedOkFrom env st.trace d = true

/-- Between two machine states, the run ended at `sys.exit(1)`: the trace
grew by successful checked commands and then one failing checked command,
which is the last command ever issued. -/
def FatalExtension (env : GitEnv) (st st' : GitSt) : Prop :=
  ∃ d c, st'.trace = st.trace ++ d ++ [c]
    ∧ checkedOkFrom env st.trace d = true
    ∧ isUncheckedCmd c = false
    ∧ (env.git (st.trace ++ d) c).exitCode ≠ 0

/-! ## Concrete sample inputs used by witnesses and counterexamples -/

/-- A scan document with one critical vulnerability (the end-to-end scenario
of the specification, section 8). -/
def criticalScanInput : SnykData :=
  .list [⟨some false,
    some [⟨some "libfoo", some "critical", some "1.0", some ["1.1"],
      some "http://x", none⟩]⟩]

/-- A vulnerability entry with every field absent. -/
def emptyVulnJson : VulnJson := ⟨none, none, none, none, none, none⟩

/-- A failing manifest whose single vulnerability entry has no fields. -/
def urlDefaultInput : SnykData := .list [⟨some false, some [emptyVulnJson]⟩]

/-- A critical sample record (all other fields at their parser defaults). -/
def vCritW : VulnRecord :=
  ⟨"libfoo", "critical", "1.0", "NA", "#", "Not Available"⟩

/-- A low-severity sample record. -/
def vLowW : VulnRecord :=
  ⟨"libbar", "low", "1.0", "NA", "#", "Not Available"⟩

/-- A git oracle under which only the drift-check log command fails:
`branch -r` reports `origin/main`, the log command exits 128, everything
else succeeds. -/
def gitFailLog : List (List String) → List String → GitOutcome := fun _ cmd =>
  if cmd == ["branch", "-r"] then ⟨0, "origin/main"⟩
  else if cmd.head? == some "log" then ⟨128, ""⟩
  else ⟨0, ""⟩

/-- An environment on an unprotected branch whose drift-check log command
fails. -/
def envLogFail : GitEnv := ⟨gitFailLog, fun _ => "", "feature", "TICKET-1"⟩

/-- An environment on an unprotected branch where every git command
succeeds with empty output. -/
def envAllOk : GitEnv := ⟨fun _ _ => ⟨0, ""⟩, fun _ => "", "feature", "TICKET-1"⟩

/-- An environment on the protected branch `main` whose operator answers
`n` to every prompt. -/
def envDecline : GitEnv := ⟨fun _ _ => ⟨0, ""⟩, fun _ => "n", "main", "TICKET-1"⟩

/-! ## Helper lemmas about the Snyk gate accumulation -/

/-- One gate step sets the flag when either condition fires and appends that
record's reason strings. -/
theorem stepGate_eq (acc : Bool × List String) (r : VulnRecord) :
    stepGate acc r = (acc.1 || vulnFails r, acc.2 ++ reasonsOf r) := by
  simp only [stepGate, vulnFails, reasonsOf]
  cases h1 : vulnCritical r <;> cases h2 : vulnHighFixableMature r <;>
    simp [h1, h2]

/-- Closed form of the gate loop from an arbitrary accumulator. -/
theorem foldl_stepGate (rs : List VulnRecord) (b : Bool) (acc : List String) :
    rs.foldl stepGate (b, acc) =
      (b || rs.any vulnFails, acc ++ rs.flatMap reasonsOf) := by
  induction rs generalizing b acc with
  | nil => simp
  | cons r rest ih =>
    simp only [List.foldl_cons, stepGate_eq, List.any_cons, List.flatMap_cons]
    rw [ih]
    simp [Bool.or_assoc, List.append_assoc]

/-- The gate verdict is the disjunction of the per-record conditions. -/
theorem snykGateFailed_eq_any (rs : List VulnRecord) :
    snykGateFailed rs = rs.any vulnFails := by
  simp [snykGateFailed, processGate, foldl_stepGate]

/-- The accumulated reasons are the concatenation of per-record reasons. -/
theorem processGate_snd_eq (rs : List VulnRecord) :
    (processGate rs).2 = rs.flatMap reasonsOf := by
  simp [processGate, foldl_stepGate]

/-! ## Claim theorems -/

/-- C1 (code_bug exhibit): on a scan containing a critical vulnerability the
security gate fails, yet `_process_snyk_results` does not halt (its
`sys.exit(1)` at SnykAnalyser.py:137 is commented out), so `MainPipeline.main`
goes on to run the dependency audit, the remediation, and the VCS sync. -/
theorem snyk_gate_failure_not_halting :
    (processSnykResults criticalScanInput).gateFailed = true
    ∧ (processSnykResults criticalScanInput).halted = false
    ∧ stagesAfterScan criticalScanInput =
        [Stage.dependencyAudit, Stage.remediation, Stage.vcsSync] := by
  refine ⟨by decide, rfl, by decide⟩

/-- C2: the security gate fails iff some parsed vulnerability is critical, or
is high with a fix (the `fixed_in` field is not the `"NA"` sentinel) and a
mature exploit; and the verdict is invariant under permutation of the
parsed-vulnerability sequence. -/
theorem security_gate_iff_perm (rs : List VulnRecord) :
    (snykGateFailed rs = true ↔
      ∃ r ∈ rs, r.severity = "critical" ∨
        (r.severity = "high" ∧ r.fixed_in ≠ "NA" ∧ r.exploit_maturity = "Mature"))
    ∧ ∀ rs' : List VulnRecord, rs.Perm rs' →
        snykGateFailed rs = snykGateFailed rs' := by
  constructor
  · rw [snykGateFailed_eq_any, List.any_eq_true]
    constructor
    · rintro ⟨r, hr, hf⟩
      refine ⟨r, hr, ?_⟩
      simpa [vulnFails, vulnCritical, vulnHighFixableMature, and_assoc] using hf
    · rintro ⟨r, hr, hf⟩
      refine ⟨r, hr, ?_⟩
      simpa [vulnFails, vulnCritical, vulnHighFixableMature, and_assoc] using hf
  · intro rs' hperm
    rw [snykGateFailed_eq_any, snykGateFailed_eq_any, Bool.eq_iff_iff,
      List.any_eq_true, List.any_eq_true]
    constructor
    · rintro ⟨r, hr, hf⟩; exact ⟨r, hperm.mem_iff.mp hr, hf⟩
    · rintro ⟨r, hr, hf⟩; exact ⟨r, hperm.mem_iff.mpr hr, hf⟩

/-- Witness for C2 at a concrete two-record scan and its transposition. -/
theorem security_gate_iff_perm_witness :
    snykGateFailed [vCritW, vLowW] = true
    ∧ snykGateFailed [vCritW, vLowW] = snykGateFailed [vLowW, vCritW] :=
  ⟨(security_gate_iff_perm [vCritW, vLowW]).1.mpr
      ⟨vCritW, List.mem_cons_self _ _, Or.inl rfl⟩,
    (security_gate_iff_perm [vCritW, vLowW]).2 [vLowW, vCritW]
      (List.Perm.swap vLowW vCritW [])⟩

/-- C3: the static-analysis gate fails iff `blockerDefects > 0` or
`criticalDefects > 0` or `coverage < 80.0`; coverage exactly 80.0 with zero
defects passes, and 79.99 fails. -/
theorem static_gate_iff_boundary :
    (∀ (b c : Int) (cov : ℚ),
      sonarGateFailed b c cov = true ↔ (b > 0 ∨ c > 0 ∨ cov < 80))
    ∧ sonarGateFailed 0 0 80 = false
    ∧ sonarGateFailed 0 0 (7999 / 100 : ℚ) = true := by
  refine ⟨?_, ?_, ?_⟩
  · intro b c cov
    simp [sonarGateFailed, or_assoc]
  · simp [sonarGateFailed]
  · rw [sonarGateFailed]
    norm_num

/-- C9: emitted reason lines are a set keyed by the full reason string: a
second vulnerability of the same package triggering the same rules adds no
new emitted reason line. -/
theorem reason_dedup_collapse (l1 l2 : List VulnRecord) (v w : VulnRecord)
    (hp : v.package = w.package)
    (hc : vulnCritical v = vulnCritical w)
    (hh : vulnHighFixableMature v = vulnHighFixableMature w) :
    emittedReasonSet (l1 ++ v :: w :: l2) = emittedReasonSet (l1 ++ v :: l2) := by
  have hreq : reasonsOf w = reasonsOf v := by
    simp [reasonsOf, ← hp, ← hc, ← hh]
  simp only [emittedReasonSet, processGate_snd_eq, List.flatMap_append,
    List.flatMap_cons, hreq]
  ext x
  simp [List.mem_append]

/-- Witness for C9: duplicating a concrete critical record leaves the emitted
reason set unchanged. -/
theorem reason_dedup_collapse_witness :
    emittedReasonSet [vCritW, vCritW] = emittedReasonSet [vCritW] :=
  reason_dedup_collapse [] [] vCritW vCritW rfl rfl rfl

/-- C7: when the coverage file is missing, unparsable, or lacks the
INSTRUCTION counter, the parser (a total function, so it can raise nothing)
returns 0, and then the static-analysis gate fails even with zero blocker
and zero critical defects. -/
theorem coverage_fallback_gate (f : JacocoFile)
    (h : f = JacocoFile.missing ∨ f = JacocoFile.unparsable ∨
      ∃ cs, f = JacocoFile.parsed cs ∧
        cs.find? (fun c => c.ctype == "INSTRUCTION") = none) :
    parseJacocoReport f = 0
    ∧ sonarGateFailed 0 0 (parseJacocoReport f) = true := by
  have h0 : parseJacocoReport f = 0 := by
    rcases h with h | h | ⟨cs, rfl, hf⟩
    · rw [h]; rfl
    · rw [h]; rfl
    · simp [parseJacocoReport, hf]
  refine ⟨h0, ?_⟩
  rw [h0, sonarGateFailed]
  norm_num

/-- Witness for C7 at the missing-file state. -/
theorem coverage_fallback_gate_witness :
    parseJacocoReport JacocoFile.missing = 0
    ∧ sonarGateFailed 0 0 (parseJacocoReport JacocoFile.missing) = true :=
  coverage_fallback_gate JacocoFile.missing (Or.inl rfl)

/-- C10: the coverage computation is division-safe — a present INSTRUCTION
counter with `missed + covered = 0` yields 0 rather than a division error
(the computation is a total function) — and for nonnegative counter
attributes the result lies in [0, 100]. -/
theorem coverage_division_safe (c : JacocoCounter) (cs : List JacocoCounter) :
    (cs.find? (fun x => x.ctype == "INSTRUCTION") = some c →
      c.missed + c.covered = 0 →
      parseJacocoReport (JacocoFile.parsed cs) = 0)
    ∧ (0 ≤ c.missed → 0 ≤ c.covered →
      0 ≤ coverageOfCounter c ∧ coverageOfCounter c ≤ 100) := by
  constructor
  · intro hf h0
    simp [parseJacocoReport, hf, coverageOfCounter, h0]
  · intro hm hc
    unfold coverageOfCounter
    by_cases ht : c.missed + c.covered > 0
    · simp only [if_pos ht]
      have htQ : (0 : ℚ) < ((c.missed + c.covered : Int) : ℚ) := by
        exact_mod_cast ht
      have hcQ : (0 : ℚ) ≤ ((c.covered : Int) : ℚ) := by exact_mod_cast hc
      have hmQ : (0 : ℚ) ≤ ((c.missed : Int) : ℚ) := by exact_mod_cast hm
      have hdiv0 : (0 : ℚ) ≤
          ((c.covered : Int) : ℚ) / ((c.missed + c.covered : Int) : ℚ) :=
        div_nonneg hcQ htQ.le
      have hle : ((c.covered : Int) : ℚ) ≤ ((c.missed + c.covered : Int) : ℚ) := by
        push_cast
        linarith
      have h1 : ((c.covered : Int) : ℚ) / ((c.missed + c.covered : Int) : ℚ) ≤ 1 :=
        (div_le_one htQ).mpr hle
      constructor
      · nlinarith
      · nlinarith
    · simp only [if_neg ht]
      norm_num

/-- Witness for C10 at the all-zero INSTRUCTION counter. -/
theorem coverage_division_safe_witness :
    parseJacocoReport (JacocoFile.parsed [⟨"INSTRUCTION", 0, 0⟩]) = 0
    ∧ 0 ≤ coverageOfCounter ⟨"INSTRUCTION", 0, 0⟩
    ∧ coverageOfCounter ⟨"INSTRUCTION", 0, 0⟩ ≤ 100 :=
  ⟨(coverage_division_safe ⟨"INSTRUCTION", 0, 0⟩ [⟨"INSTRUCTION", 0, 0⟩]).1
      (by decide) rfl,
    (coverage_division_safe ⟨"INSTRUCTION", 0, 0⟩ [⟨"INSTRUCTION", 0, 0⟩]).2
      le_rfl le_rfl⟩

/-- C4 counterexample: on a failing manifest whose vulnerability entry has
every field absent, the parsed record's URL field is the code's `'#'`
default, not the `"N/A"` sentinel the claim states for missing string
fields. -/
theorem vuln_parser_url_counterexample :
    (parsedVulns urlDefaultInput).map VulnRecord.url = ["#"]
    ∧ ("#" : String) ≠ "N/A" := by
  exact ⟨rfl, by decide⟩

/-- C4 amended: the output count equals the sum of the `vulnerabilities`
lengths over selected entries (`ok == false` with a `vulnerabilities`
array), output order is encounter order, and defaults apply exactly to
absent fields — `"N/A"` for the package, severity and version strings,
`'#'` for the URL, `"Not Available"` for exploit maturity, and the `"NA"`
sentinel for a `fixedIn` that is absent or empty. -/
theorem vuln_parser_count_order_defaults (d : SnykData) :
    ((parsedVulns d).length =
      (((parseProjects d).filter projectSelected).map
        (fun p => (p.vulnerabilities.getD []).length)).sum)
    ∧ (parsedVulns d =
        ((parseProjects d).filter projectSelected).flatMap
          (fun p => (p.vulnerabilities.getD []).map parseVuln))
    ∧ (∀ v : VulnJson,
        (v.packageName = none → (parseVuln v).package = "N/A")
        ∧ (v.severity = none → (parseVuln v).severity = "N/A")
        ∧ (v.version = none → (parseVuln v).version = "N/A")
        ∧ (v.url = none → (parseVuln v).url = "#")
        ∧ (v.exploit = none → (parseVuln v).exploit_maturity = "Not Available")
        ∧ ((v.fixedIn = none ∨ v.fixedIn = some []) →
            (parseVuln v).fixed_in = "NA")) := by
  have hflat : ∀ l : List ProjectJson,
      l.flatMap projectVulns =
        (l.filter projectSelected).flatMap
          (fun p => (p.vulnerabilities.getD []).map parseVuln) := by
    intro l
    induction l with
    | nil => rfl
    | cons p rest ih =>
      by_cases hp : projectSelected p = true
      · simp [List.flatMap_cons, List.filter_cons, hp, projectVulns, ih]
      · simp only [Bool.not_eq_true] at hp
        simp [List.flatMap_cons, List.filter_cons, hp, projectVulns, ih]
  refine ⟨?_, ?_, ?_⟩
  · rw [parsedVulns, hflat]
    rw [List.length_flatMap]
    congr 1
    simp
  · rw [parsedVulns, hflat]
  · intro v
    refine ⟨?_, ?_, ?_, ?_, ?_, ?_⟩
    · intro h; simp [parseVuln, h]
    · intro h; simp [parseVuln, h]
    · intro h; simp [parseVuln, h]
    · intro h; simp [parseVuln, h]
    · intro h; simp [parseVuln, h]
    · rintro (h | h) <;> simp [parseVuln, fixedInOf, h]

/-- Witness for C4 at the all-fields-absent entry inside a one-entry scan. -/
theorem vuln_parser_count_order_defaults_witness :
    (parseVuln emptyVulnJson).package = "N/A"
    ∧ (parseVuln emptyVulnJson).exploit_maturity = "Not Available"
    ∧ (parseVuln emptyVulnJson).fixed_in = "NA" :=
  ⟨((vuln_parser_count_order_defaults urlDefaultInput).2.2 emptyVulnJson).1 rfl,
    ((vuln_parser_count_order_defaults urlDefaultInput).2.2 emptyVulnJson).2.2.2.2.1 rfl,
    ((vuln_parser_count_order_defaults urlDefaultInput).2.2 emptyVulnJson).2.2.2.2.2
      (Or.inl rfl)⟩

/-- The end-marker rule line does not contain the start marker. -/
theorem endMarker_no_startMarker : strContains endMarker startMarker = false := by
  decide

/-- The end-marker rule line starts with itself. -/
theorem endMarker_self : strStartsWith endMarker endMarker = true := by
  decide

/-- When no line contains the start marker, the scanning loop never starts
capturing and returns its accumulator unchanged. -/
theorem parseTreeLoop_no_marker (lines : List String) (acc : List String)
    (h : ∀ l ∈ lines, strContains l startMarker = false) :
    parseTreeLoop lines false acc = acc := by
  induction lines with
  | nil => rfl
  | cons l rest ih =>
    have hl := h l (List.mem_cons_self _ _)
    have hrest : ∀ x ∈ rest, strContains x startMarker = false :=
      fun x hx => h x (List.mem_cons_of_mem _ hx)
    simp [parseTreeLoop, hl, ih hrest]

/-- While capturing, a block of plain `[INFO] `-prefixed lines (none
containing the start marker, none extending the end marker) followed by the
end-marker line is captured with the prefix stripped. -/
theorem parseTreeLoop_body (body : List String) (acc : List String)
    (hbody : ∀ l ∈ body, strStartsWith l "[INFO] " = true
      ∧ strContains l startMarker = false
      ∧ strStartsWith l endMarker = false) :
    parseTreeLoop (body ++ [endMarker]) true acc =
      acc ++ body.map (fun l => strDrop l 7) := by
  induction body generalizing acc with
  | nil =>
    simp [parseTreeLoop, endMarker_no_startMarker, endMarker_self]
  | cons l rest ih =>
    have hl := hbody l (List.mem_cons_self _ _)
    have hrest : ∀ x ∈ rest, strStartsWith x "[INFO] " = true
        ∧ strContains x startMarker = false
        ∧ strStartsWith x endMarker = false :=
      fun x hx => hbody x (List.mem_cons_of_mem _ hx)
    simp only [List.cons_append, parseTreeLoop, hl.1, hl.2.1, hl.2.2,
      Bool.false_eq_true, if_false, if_true]
    rw [show rest.append [endMarker] = rest ++ [endMarker] from rfl,
      ih (acc ++ [strDrop l 7]) hrest]
    simp

/-- C5 counterexample: the second line is prefixed with `[INFO] ` and is not
the end-marker line, but it contains the start marker, so the loop restarts
capture and skips it; the claimed output would be that line with the prefix
stripped, yet the parser returns the could-not-parse sentinel. -/
theorem tree_parser_counterexample :
    parseProjectTreeOutput
        ("[INFO] --- dependency:tree (default-cli) @ app ---\n[INFO] --- dependency\n"
          ++ endMarker)
      = couldNotParseSentinel
    ∧ couldNotParseSentinel ≠ "--- dependency" := by
  constructor
  · rfl
  · decide

/-- C5 amended: for a start-marker line, then at least one `[INFO] `-prefixed
line — none containing the start marker and none having the end marker as a
prefix — then the end-marker line, the parser returns the body lines with the
7-character prefix stripped, newline-joined; and for any input whose lines
all lack the start marker it returns the could-not-parse sentinel. -/
theorem tree_parser_marker_spec (s : String) (body : List String)
    (hs : strContains s startMarker = true)
    (hne : body ≠ [])
    (hbody : ∀ l ∈ body, strStartsWith l "[INFO] " = true
      ∧ strContains l startMarker = false
      ∧ strStartsWith l endMarker = false) :
    parseTreeLines (s :: body ++ [endMarker]) =
      String.intercalate "\n" (body.map (fun l => strDrop l 7))
    ∧ (∀ lines : List String,
        (∀ l ∈ lines, strContains l startMarker = false) →
        parseTreeLines lines = couldNotParseSentinel) := by
  constructor
  · unfold parseTreeLines
    have h1 : parseTreeLoop (s :: body ++ [endMarker]) false [] =
        body.map (fun l => strDrop l 7) := by
      simp only [List.cons_append, parseTreeLoop, hs, if_true]
      simpa using parseTreeLoop_body body [] hbody
    rw [h1]
    have h2 : (body.map (fun l => strDrop l 7)).isEmpty = false := by
      cases body with
      | nil => exact absurd rfl hne
      | cons a rest => rfl
    simp [h2]
  · intro lines hlines
    unfold parseTreeLines
    rw [parseTreeLoop_no_marker lines [] hlines]
    rfl

/-- Witness for C5 at a concrete three-line console dump. -/
theorem tree_parser_marker_spec_witness :
    parseTreeLines
        ["[INFO] --- dependency:tree (default-cli) @ app ---",
          "[INFO] com.example:app:jar:1.0", endMarker] =
      String.intercalate "\n" ["com.example:app:jar:1.0"]
    ∧ parseTreeLines ["nothing here"] = couldNotParseSentinel := by
  have h := tree_parser_marker_spec
    "[INFO] --- dependency:tree (default-cli) @ app ---"
    ["[INFO] com.example:app:jar:1.0"]
    (by decide) (by decide) (by decide)
  exact ⟨h.1, h.2 ["nothing here"] (by decide)⟩

/-! ## Helper lemmas for the VCS-sync state machine -/

/-- `checkedOkFrom` splits across an append of traces. -/
theorem checkedOkFrom_append (env : GitEnv) (base d1 d2 : List (List String)) :
    checkedOkFrom env base (d1 ++ d2) =
      (checkedOkFrom env base d1 && checkedOkFrom env (base ++ d1) d2) := by
  induction d1 generalizing base with
  | nil => simp [checkedOkFrom]
  | cons c t ih =>
    simp [checkedOkFrom, ih (base ++ [c]), Bool.and_assoc]

/-- States with equal traces are trivially ok-extensions. -/
theorem okExtension_of_trace_eq {env : GitEnv} {st st' : GitSt}
    (h : st'.trace = st.trace) : OkExtension env st st' :=
  ⟨[], by simp [h], rfl⟩

/-- Ok-extensions compose. -/
theorem okExtension_trans {env : GitEnv} {st1 st2 st3 : GitSt}
    (h1 : OkExtension env st1 st2) (h2 : OkExtension env st2 st3) :
    OkExtension env st1 st3 := by
  rcases h1 with ⟨d1, e1, ok1⟩
  rcases h2 with ⟨d2, e2, ok2⟩
  refine ⟨d1 ++ d2, ?_, ?_⟩
  · rw [e2, e1, List.append_assoc]
  · rw [checkedOkFrom_append, ok1]
    rw [e1] at ok2
    simpa using ok2

/-- A fatal extension after an ok-extension is a fatal extension. -/
theorem okExtension_fatal {env : GitEnv} {st1 st2 st3 : GitSt}
    (h1 : OkExtension env st1 st2) (h2 : FatalExtension env st2 st3) :
    FatalExtension env st1 st3 := by
  rcases h1 with ⟨d1, e1, ok1⟩
  rcases h2 with ⟨d2, c, e2, ok2, hc, hfail⟩
  refine ⟨d1 ++ d2, c, ?_, ?_, hc, ?_⟩
  · rw [e2, e1]
    simp [List.append_assoc]
  · rw [checkedOkFrom_append, ok1]
    rw [e1] at ok2
    simpa using ok2
  · rw [e1, List.append_assoc] at hfail
    exact hfail

/-- Issuing one command whose checked invocation succeeded (or which is
unchecked) is an ok-extension. -/
theorem okExtension_single (env : GitEnv) (st : GitSt) (cmd : List String)
    (h : isUncheckedCmd cmd = true ∨ (env.git st.trace cmd).exitCode = 0) :
    OkExtension env st { st with trace := st.trace ++ [cmd] } := by
  refine ⟨[cmd], rfl, ?_⟩
  rcases h with h | h <;> simp [checkedOkFrom, h]

/-- Issuing one failing checked command is a fatal extension. -/
theorem fatalExtension_single (env : GitEnv) (st : GitSt) (cmd : List String)
    (hc : isUncheckedCmd cmd = false)
    (hf : (env.git st.trace cmd).exitCode ≠ 0) :
    FatalExtension env st { st with trace := st.trace ++ [cmd] } :=
  ⟨[], cmd, by simp, rfl, hc, by simpa using hf⟩

/-- Outcome dichotomy for one `_run_git_command` invocation. -/
theorem runGitCommand_cases (env : GitEnv) (st : GitSt) (cmd : List String)
    (check : Bool) :
    (runGitCommand env st cmd check =
        .ok ((env.git st.trace cmd).stdout, { st with trace := st.trace ++ [cmd] })
      ∧ (check = true → (env.git st.trace cmd).exitCode = 0))
    ∨ (runGitCommand env st cmd check =
        .error { st with trace := st.trace ++ [cmd] }
      ∧ check = true ∧ (env.git st.trace cmd).exitCode ≠ 0) := by
  unfold runGitCommand issueGit
  by_cases h : (check && ((env.git st.trace cmd).exitCode != 0)) = true
  · right
    have h' : check = true ∧ (env.git st.trace cmd).exitCode ≠ 0 := by
      simpa using h
    exact ⟨by simp [h], h'.1, h'.2⟩
  · left
    refine ⟨by simp [h], ?_⟩
    intro hck
    subst hck
    simpa using h

/-- `check_current_branch` issues no git command. -/
theorem checkCurrentBranch_trace (env : GitEnv) (st : GitSt) :
    ((checkCurrentBranch env st).2).trace = st.trace := by
  unfold checkCurrentBranch readInput
  split <;> rfl

/-- The staging loop either completes with all checked commands succeeding
or halts at its first failing checked command. -/
theorem stageLoop_spec (env : GitEnv) (files : List String) :
    ∀ (addAll : Bool) (st : GitSt),
      (∀ st', stageLoop env files addAll st = .ok st' → OkExtension env st st')
      ∧ (∀ st', stageLoop env files addAll st = .error st' →
          FatalExtension env st st') := by
  induction files with
  | nil =>
    intro addAll st
    refine ⟨fun st' h => ?_, fun st' h => ?_⟩
    · simp only [stageLoop, Except.ok.injEq] at h
      subst h
      exact okExtension_of_trace_eq rfl
    · exact absurd h (by simp [stageLoop])
  | cons f rest ih =>
    intro addAll st
    cases addAll with
    | true =>
      rcases runGitCommand_cases env st ["add", f] true with ⟨heq, himp⟩ |
          ⟨heq, hck, hfail⟩
      · have hsingle := okExtension_single env st ["add", f] (Or.inr (himp rfl))
        refine ⟨fun st' h => ?_, fun st' h => ?_⟩
        · simp only [stageLoop, if_true, heq] at h
          exact okExtension_trans hsingle ((ih true _).1 st' h)
        · simp only [stageLoop, if_true, heq] at h
          exact okExtension_fatal hsingle ((ih true _).2 st' h)
      · refine ⟨fun st' h => ?_, fun st' h => ?_⟩
        · simp only [stageLoop, if_true, heq] at h
          exact absurd h (by simp)
        · simp only [stageLoop, if_true, heq, Except.error.injEq] at h
          subst h
          exact fatalExtension_single env st ["add", f] rfl hfail
    | false =>
      have hre : OkExtension env st { st with inputIdx := st.inputIdx + 1 } :=
        okExtension_of_trace_eq rfl
      by_cases hy : (strLower (env.inputs st.inputIdx) == "y") = true
      · rcases runGitCommand_cases env { st with inputIdx := st.inputIdx + 1 }
            ["add", f] true with ⟨heq, himp⟩ | ⟨heq, hck, hfail⟩
        · have hsingle := okExtension_single env
            { st with inputIdx := st.inputIdx + 1 } ["add", f]
            (Or.inr (himp rfl))
          refine ⟨fun st' h => ?_, fun st' h => ?_⟩
          · simp only [stageLoop, Bool.false_eq_true, if_false, readInput,
              hy, if_true, heq] at h
            exact okExtension_trans hre
              (okExtension_trans hsingle ((ih false _).1 st' h))
          · simp only [stageLoop, Bool.false_eq_true, if_false, readInput,
              hy, if_true, heq] at h
            exact okExtension_fatal hre
              (okExtension_fatal hsingle ((ih false _).2 st' h))
        · refine ⟨fun st' h => ?_, fun st' h => ?_⟩
          · simp only [stageLoop, Bool.false_eq_true, if_false, readInput,
              hy, if_true, heq] at h
            exact absurd h (by simp)
          · simp only [stageLoop, Bool.false_eq_true, if_false, readInput,
              hy, if_true, heq, Except.error.injEq] at h
            subst h
            exact okExtension_fatal hre
              (fatalExtension_single env _ ["add", f] rfl hfail)
      · by_cases ha : (strLower (env.inputs st.inputIdx) == "a") = true
        · rcases runGitCommand_cases env { st with inputIdx := st.inputIdx + 1 }
              ["add", f] true with ⟨heq, himp⟩ | ⟨heq, hck, hfail⟩
          · have hsingle := okExtension_single env
              { st with inputIdx := st.inputIdx + 1 } ["add", f]
              (Or.inr (himp rfl))
            refine ⟨fun st' h => ?_, fun st' h => ?_⟩
            · simp only [stageLoop, Bool.false_eq_true, if_false, readInput,
                hy, ha, if_true, heq] at h
              exact okExtension_trans hre
                (okExtension_trans hsingle ((ih true _).1 st' h))
            · simp only [stageLoop, Bool.false_eq_true, if_false, readInput,
                hy, ha, if_true, heq] at h
              exact okExtension_fatal hre
                (okExtension_fatal hsingle ((ih true _).2 st' h))
          · refine ⟨fun st' h => ?_, fun st' h => ?_⟩
            · simp only [stageLoop, Bool.false_eq_true, if_false, readInput,
                hy, ha, if_true, heq] at h
              exact absurd h (by simp)
            · simp only [stageLoop, Bool.false_eq_true, if_false, readInput,
                hy, ha, if_true, heq, Except.error.injEq] at h
              subst h
              exact okExtension_fatal hre
                (fatalExtension_single env _ ["add", f] rfl hfail)
        · by_cases hq : (strLower (env.inputs st.inputIdx) == "q") = true
          · refine ⟨fun st' h => ?_, fun st' h => ?_⟩
            · simp only [stageLoop, Bool.false_eq_true, if_false, readInput,
                hy, ha, hq, if_true, Except.ok.injEq] at h
              subst h
              exact hre
            · simp only [stageLoop, Bool.false_eq_true, if_false, readInput,
                hy, ha, hq, if_true] at h
              exact absurd h (by simp)
          · refine ⟨fun st' h => ?_, fun st' h => ?_⟩
            · simp only [stageLoop, Bool.false_eq_true, if_false, readInput,
                hy, ha, hq] at h
              exact okExtension_trans hre ((ih false _).1 st' h)
            · simp only [stageLoop, Bool.false_eq_true, if_false, readInput,
                hy, ha, hq] at h
              exact okExtension_fatal hre ((ih false _).2 st' h)

/-- `stage_files` either completes with all checked commands succeeding or
halts at its first failing checked command. -/
theorem stageFiles_spec (env : GitEnv) (st : GitSt) :
    (∀ st', stageFiles env st = .ok st' → OkExtension env st st')
    ∧ (∀ st', stageFiles env st = .error st' → FatalExtension env st st') := by
  rcases runGitCommand_cases env st ["status", "--porcelain"] true with
    ⟨heq, himp⟩ | ⟨heq, hck, hfail⟩
  · have hsingle := okExtension_single env st ["status", "--porcelain"]
      (Or.inr (himp rfl))
    refine ⟨fun st' h => ?_, fun st' h => ?_⟩
    · simp only [stageFiles, heq] at h
      split at h
      · simp only [Except.ok.injEq] at h
        subst h
        exact hsingle
      · split at h
        · simp only [Except.ok.injEq] at h
          subst h
          exact hsingle
        · exact okExtension_trans hsingle ((stageLoop_spec env _ false _).1 st' h)
    · simp only [stageFiles, heq] at h
      split at h
      · exact absurd h (by simp)
      · split at h
        · exact absurd h (by simp)
        · exact okExtension_fatal hsingle ((stageLoop_spec env _ false _).2 st' h)
  · refine ⟨fun st' h => ?_, fun st' h => ?_⟩
    · simp only [stageFiles, heq] at h
      exact absurd h (by simp)
    · simp only [stageFiles, heq, Except.error.injEq] at h
      subst h
      exact fatalExtension_single env st ["status", "--porcelain"] rfl hfail

/-- `create_commit` either completes (the unchecked staged-changes probe may
exit non-zero freely: that is data) or halts at a failing checked commit
command. -/
theorem createCommit_spec (env : GitEnv) (st : GitSt) :
    (∀ st', createCommit env st = .ok st' → OkExtension env st st')
    ∧ (∀ st', createCommit env st = .error st' → FatalExtension env st st') := by
  have hprobe : OkExtension env st
      { st with trace := st.trace ++ [["diff", "--cached", "--quiet"]] } :=
    okExtension_single env st ["diff", "--cached", "--quiet"] (Or.inl rfl)
  have hq : OkExtension env st
      (⟨st.trace ++ [["diff", "--cached", "--quiet"]], st.inputIdx + 1⟩ : GitSt) :=
    okExtension_trans hprobe (okExtension_of_trace_eq rfl)
  by_cases hz : ((env.git st.trace ["diff", "--cached", "--quiet"]).exitCode
      == 0) = true
  · refine ⟨fun st' h => ?_, fun st' h => ?_⟩
    · simp only [createCommit, issueGit, hz, if_true, Except.ok.injEq] at h
      subst h
      exact hprobe
    · simp only [createCommit, issueGit, hz, if_true] at h
      exact absurd h (by simp)
  · rcases runGitCommand_cases env
        (⟨st.trace ++ [["diff", "--cached", "--quiet"]], st.inputIdx + 1⟩ : GitSt)
        ["commit", "-m", env.jiraTicket ++ ": " ++ env.inputs st.inputIdx]
        true with ⟨heq, himp⟩ | ⟨heq, hck, hfail⟩
    · refine ⟨fun st' h => ?_, fun st' h => ?_⟩
      · simp only [createCommit, issueGit, readInput, hz, Bool.false_eq_true,
          if_false, heq, Except.ok.injEq] at h
        subst h
        exact okExtension_trans hq
          (okExtension_single env _ _ (Or.inr (himp rfl)))
      · simp only [createCommit, issueGit, readInput, hz, Bool.false_eq_true,
          if_false, heq] at h
        exact absurd h (by simp)
    · refine ⟨fun st' h => ?_, fun st' h => ?_⟩
      · simp only [createCommit, issueGit, readInput, hz, Bool.false_eq_true,
          if_false, heq] at h
        exact absurd h (by simp)
      · simp only [createCommit, issueGit, readInput, hz, Bool.false_eq_true,
          if_false, heq, Except.error.injEq] at h
        subst h
        exact okExtension_fatal hq
          (fatalExtension_single env _
            ["commit", "-m", env.jiraTicket ++ ": " ++ env.inputs st.inputIdx]
            rfl hfail)

/-- The per-branch drift loop never halts: every log command it issues is
unchecked. -/
theorem driftLoop_spec (env : GitEnv) (remotes : String) (bs : List String) :
    ∀ (report : String) (st : GitSt),
      (∀ r' st', driftLoop env remotes bs report st = .ok (r', st') →
        OkExtension env st st')
      ∧ (∀ st', driftLoop env remotes bs report st = .error st' →
        FatalExtension env st st') := by
  induction bs with
  | nil =>
    intro report st
    refine ⟨fun r' st' h => ?_, fun st' h => ?_⟩
    · simp only [driftLoop, Except.ok.injEq, Prod.mk.injEq] at h
      rcases h with ⟨-, h2⟩
      subst h2
      exact okExtension_of_trace_eq rfl
    · exact absurd h (by simp [driftLoop])
  | cons b rest ih =>
    intro report st
    by_cases hc : strContains remotes ("origin/" ++ b) = true
    · rcases runGitCommand_cases env st ["log", "HEAD..origin/" ++ b, "--oneline"]
          false with ⟨heq, -⟩ | ⟨heq, hck, -⟩
      · have hsingle := okExtension_single env st
          ["log", "HEAD..origin/" ++ b, "--oneline"] (Or.inl rfl)
        refine ⟨fun r' st' h => ?_, fun st' h => ?_⟩
        · simp only [driftLoop, hc, if_true, heq] at h
          exact okExtension_trans hsingle ((ih _ _).1 r' st' h)
        · simp only [driftLoop, hc, if_true, heq] at h
          exact okExtension_fatal hsingle ((ih _ _).2 st' h)
      · exact absurd hck (by simp)
    · refine ⟨fun r' st' h => ?_, fun st' h => ?_⟩
      · simp only [driftLoop, hc, Bool.false_eq_true, if_false] at h
        exact (ih _ _).1 r' st' h
      · simp only [driftLoop, hc, Bool.false_eq_true, if_false] at h
        exact (ih _ _).2 st' h

/-- `check_remote_changes` either completes with all checked commands
succeeding or halts at its first failing checked command. -/
theorem checkRemoteChanges_spec (env : GitEnv) (st : GitSt) :
    (∀ r' st', checkRemoteChanges env st = .ok (r', st') → OkExtension env st st')
    ∧ (∀ st', checkRemoteChanges env st = .error st' → FatalExtension env st st') := by
  rcases runGitCommand_cases env st ["fetch", "origin"] true with
    ⟨heq1, himp1⟩ | ⟨heq1, hck1, hfail1⟩
  · have hs1 := okExtension_single env st ["fetch", "origin"]
      (Or.inr (himp1 rfl))
    rcases runGitCommand_cases env
        { st with trace := st.trace ++ [["fetch", "origin"]] }
        ["branch", "-r"] true with ⟨heq2, himp2⟩ | ⟨heq2, hck2, hfail2⟩
    · have hs2 := okExtension_single env
        { st with trace := st.trace ++ [["fetch", "origin"]] }
        ["branch", "-r"] (Or.inr (himp2 rfl))
      refine ⟨fun r' st' h => ?_, fun st' h => ?_⟩
      · simp only [checkRemoteChanges, heq1, heq2] at h
        exact okExtension_trans hs1 (okExtension_trans hs2
          ((driftLoop_spec env _ branchesToCheck "" _).1 r' st' h))
      · simp only [checkRemoteChanges, heq1, heq2] at h
        exact okExtension_fatal hs1 (okExtension_fatal hs2
          ((driftLoop_spec env _ branchesToCheck "" _).2 st' h))
    · refine ⟨fun r' st' h => ?_, fun st' h => ?_⟩
      · simp only [checkRemoteChanges, heq1, heq2] at h
        exact absurd h (by simp)
      · simp only [checkRemoteChanges, heq1, heq2, Except.error.injEq] at h
        subst h
        exact okExtension_fatal hs1
          (fatalExtension_single env _ ["branch", "-r"] rfl hfail2)
  · refine ⟨fun r' st' h => ?_, fun st' h => ?_⟩
    · simp only [checkRemoteChanges, heq1] at h
      exact absurd h (by simp)
    · simp only [checkRemoteChanges, heq1, Except.error.injEq] at h
      subst h
      exact fatalExtension_single env st ["fetch", "origin"] rfl hfail1

/-- C6 counterexample: under `envLogFail` the per-branch drift-check log
command exits 128, yet `run_full_process` does not halt there — it goes on
to push and completes (the log command is invoked with `check=False` at
GitChecker.py:131). -/
theorem git_failure_tolerated_counterexample :
    (envLogFail.git
        [["status", "--porcelain"], ["diff", "--cached", "--quiet"],
          ["fetch", "origin"], ["branch", "-r"]]
        ["log", "HEAD..origin/main", "--oneline"]).exitCode = 128
    ∧ runFullProcess envLogFail = RunResult.completed
        ⟨[["status", "--porcelain"], ["diff", "--cached", "--quiet"],
          ["fetch", "origin"], ["branch", "-r"],
          ["log", "HEAD..origin/main", "--oneline"],
          ["push", "-u", "origin", "feature"]], 0⟩ :=
  ⟨rfl, by decide⟩

/-- C6 amended: every failure of a git command issued through the checked
runner (`_run_git_command` with `check=True`) is fatal and final — a fatal
run ends at its failing checked command, which is the last command issued,
with no retry; a user-declined run issued no git command at all; and a
completed run had every checked command succeed.  The staged-changes probe
and the per-branch drift-check log command are issued without `check` and
their non-zero exits are tolerated. -/
theorem git_checked_failure_fatal (env : GitEnv) :
    (∀ st, runFullProcess env = RunResult.declined st → st.trace = [])
    ∧ (∀ st, runFullProcess env = RunResult.fatal st →
        ∃ t c, st.trace = t ++ [c] ∧ isUncheckedCmd c = false
          ∧ (env.git t c).exitCode ≠ 0)
    ∧ (∀ st, runFullProcess env = RunResult.completed st →
        checkedOkFrom env [] st.trace = true) := by
  cases hb : (checkCurrentBranch env (⟨[], 0⟩ : GitSt)).1 with
  | false =>
    refine ⟨?_, ?_, ?_⟩ <;> intro st h <;>
      simp only [runFullProcess, hb, Bool.not_false, if_true,
        RunResult.declined.injEq, RunResult.fatal.injEq,
        RunResult.completed.injEq] at h
    · rcases h with rfl
      exact checkCurrentBranch_trace env ⟨[], 0⟩
    · exact absurd h (by simp)
    · exact absurd h (by simp)
  | true =>
    have h0 : OkExtension env (⟨[], 0⟩ : GitSt)
        (checkCurrentBranch env (⟨[], 0⟩ : GitSt)).2 :=
      okExtension_of_trace_eq (checkCurrentBranch_trace env ⟨[], 0⟩)
    have hfatal_out : ∀ e : GitSt, FatalExtension env (⟨[], 0⟩ : GitSt) e →
        ∃ t c, e.trace = t ++ [c] ∧ isUncheckedCmd c = false
          ∧ (env.git t c).exitCode ≠ 0 := by
      rintro e ⟨d, c, htr, -, hc, hf⟩
      exact ⟨d, c, by simpa using htr, hc, by simpa using hf⟩
    cases hsf : stageFiles env (checkCurrentBranch env (⟨[], 0⟩ : GitSt)).2 with
    | error e1 =>
      have hfat := okExtension_fatal h0 ((stageFiles_spec env _).2 e1 hsf)
      refine ⟨?_, ?_, ?_⟩ <;> intro st h <;>
        simp only [runFullProcess, hb, Bool.not_true, Bool.false_eq_true,
          if_false, hsf, RunResult.declined.injEq, RunResult.fatal.injEq,
          RunResult.completed.injEq] at h
      · exact absurd h (by simp)
      · rcases h with rfl
        exact hfatal_out _ hfat
      · exact absurd h (by simp)
    | ok s2 =>
      have h2 := okExtension_trans h0 ((stageFiles_spec env _).1 s2 hsf)
      cases hcc : createCommit env s2 with
      | error e2 =>
        have hfat := okExtension_fatal h2 ((createCommit_spec env s2).2 e2 hcc)
        refine ⟨?_, ?_, ?_⟩ <;> intro st h <;>
          simp only [runFullProcess, hb, Bool.not_true, Bool.false_eq_true,
            if_false, hsf, hcc, RunResult.declined.injEq, RunResult.fatal.injEq,
            RunResult.completed.injEq] at h
        · exact absurd h (by simp)
        · rcases h with rfl
          exact hfatal_out _ hfat
        · exact absurd h (by simp)
      | ok s3 =>
        have h3 := okExtension_trans h2 ((createCommit_spec env s2).1 s3 hcc)
        cases hrc : checkRemoteChanges env s3 with
        | error e3 =>
          have hfat := okExtension_fatal h3
            ((checkRemoteChanges_spec env s3).2 e3 hrc)
          refine ⟨?_, ?_, ?_⟩ <;> intro st h <;>
            simp only [runFullProcess, hb, Bool.not_true, Bool.false_eq_true,
              if_false, hsf, hcc, hrc, RunResult.declined.injEq,
              RunResult.fatal.injEq, RunResult.completed.injEq] at h
          · exact absurd h (by simp)
          · rcases h with rfl
            exact hfatal_out _ hfat
          · exact absurd h (by simp)
        | ok pr =>
          obtain ⟨r4, s4⟩ := pr
          have h4 := okExtension_trans h3
            ((checkRemoteChanges_spec env s3).1 r4 s4 hrc)
          rcases runGitCommand_cases env s4
              ["push", "-u", "origin", env.currentBranch] true with
            ⟨heq, himp⟩ | ⟨heq, hck, hfail⟩
          · have h5 := okExtension_trans h4
              (okExtension_single env s4 ["push", "-u", "origin",
                env.currentBranch] (Or.inr (himp rfl)))
            refine ⟨?_, ?_, ?_⟩ <;> intro st h <;>
              simp only [runFullProcess, hb, Bool.not_true, Bool.false_eq_true,
                if_false, hsf, hcc, hrc, heq, RunResult.declined.injEq,
                RunResult.fatal.injEq, RunResult.completed.injEq] at h
            · exact absurd h (by simp)
            · exact absurd h (by simp)
            · rcases h with rfl
              rcases h5 with ⟨d, htr, hok⟩
              rw [show ((⟨[], 0⟩ : GitSt)).trace = [] from rfl] at htr
              rw [htr]
              simpa using hok
          · have hfat := okExtension_fatal h4
              (fatalExtension_single env s4
                ["push", "-u", "origin", env.currentBranch] rfl hfail)
            refine ⟨?_, ?_, ?_⟩ <;> intro st h <;>
              simp only [runFullProcess, hb, Bool.not_true, Bool.false_eq_true,
                if_false, hsf, hcc, hrc, heq, RunResult.declined.injEq,
                RunResult.fatal.injEq, RunResult.completed.injEq] at h
            · exact absurd h (by simp)
            · rcases h with rfl
              exact hfatal_out _ hfat
            · exact absurd h (by simp)

/-- Witness for C6 at a concrete environment where every git command
succeeds: the run completes and every checked command in its trace
succeeded. -/
theorem git_checked_failure_fatal_witness :
    checkedOkFrom envAllOk []
      [["status", "--porcelain"], ["diff", "--cached", "--quiet"],
        ["fetch", "origin"], ["branch", "-r"],
        ["push", "-u", "origin", "feature"]] = true :=
  (git_checked_failure_fatal envAllOk).2.2
    ⟨[["status", "--porcelain"], ["diff", "--cached", "--quiet"],
      ["fetch", "origin"], ["branch", "-r"],
      ["push", "-u", "origin", "feature"]], 0⟩ (by decide)

/-- C8: on a protected branch with a non-affirmative confirmation answer,
`run_full_process` stops in the user-declined state (distinct from the
fatal state) with an empty command trace: no staging, no commit, no drift
check and no push is ever performed in that run. -/
theorem protected_branch_decline (env : GitEnv)
    (h1 : env.currentBranch ∈ protectedBranches)
    (h2 : strLower (env.inputs 0) ≠ "y") :
    runFullProcess env = RunResult.declined ⟨[], 1⟩
    ∧ (GitSt.mk [] 1).trace = [] := by
  have hc : protectedBranches.contains env.currentBranch = true := by
    simpa using h1
  have hbeq : (strLower (env.inputs 0) == "y") = false := by
    simpa using h2
  refine ⟨?_, rfl⟩
  simp only [runFullProcess, checkCurrentBranch, readInput, hc, if_true, hbeq,
    Bool.not_false, if_true]

/-- Witness for C8 at the declining environment on `main`. -/
theorem protected_branch_decline_witness :
    runFullProcess envDecline = RunResult.declined ⟨[], 1⟩ :=
  (protected_branch_decline envDecline (by decide) (by decide)).1
